import Mathlib

/-!
Verification development for the output-filtering module
`src/ctk/utils/output_filter.py` of the CTK repository.

Strings are modelled as `List Char` (`Str`).  Python's blank-line tests,
`str.strip`/`rstrip`/`lower`, `'\n'`-splitting and joining, the regular
expressions of the module, and `difflib.SequenceMatcher.ratio` are embedded
as executable Lean functions below.  Notes on embedding choices:

* Whitespace is the ASCII whitespace set Python uses for ASCII text
  (space, tab, newline, carriage return, vertical tab, form feed); the
  repository only ever feeds terminal output through these predicates.
* `str.lower` is modelled with `Char.toLower`, which agrees with Python on
  ASCII characters (all pattern literals of the module are ASCII).
* `SequenceMatcher.ratio() >= 0.8` is modelled by the exact rational
  comparison `5 * M ≥ 2 * T` (`ratio = 2M/T`, threshold `0.8 = 4/5`),
  avoiding floating point.  All inputs evaluated concretely here are far
  from the threshold, where the float and rational comparisons agree.
-/

abbrev Str := List Char

/-- Python whitespace (ASCII part, which the module's inputs use). -/
def isPyWs (c : Char) : Bool :=
  c = ' ' || c = '\t' || c = '\n' || c = '\r' || c = '\x0b' || c = '\x0c'

/-- `str.lstrip()`. -/
def pyLstrip (l : Str) : Str := l.dropWhile isPyWs

/-- `str.rstrip()`. -/
def pyRstrip (l : Str) : Str := l.rdropWhile isPyWs

/-- `str.strip()`. -/
def pyStrip (l : Str) : Str := pyRstrip (pyLstrip l)

/-- `not line.strip()`: the line is empty or whitespace-only. -/
def blankB (l : Str) : Bool := (pyStrip l).isEmpty

/-- `str.lower()` (ASCII). -/
def pyLower (l : Str) : Str := l.map Char.toLower

/-- `line.startswith(' ')`. -/
def startsSpace (l : Str) : Bool :=
  match l with
  | ' ' :: _ => true
  | _ => false

/-- Python's `sub in s` substring test. -/
def subIn (pat : Str) : Str → Bool
  | [] => pat.isEmpty
  | c :: rest => pat.isPrefixOf (c :: rest) || subIn pat rest

/-- `output.split('\n')`. -/
def mySplit : Str → List Str
  | [] => [[]]
  | c :: rest =>
    if c = '\n' then [] :: mySplit rest
    else
      match mySplit rest with
      | [] => [[c]]
      | l :: ls => (c :: l) :: ls

/-- `'\n'.join(lines)`. -/
def myJoin : List Str → Str
  | [] => []
  | [l] => l
  | l :: l2 :: rest => l ++ '\n' :: myJoin (l2 :: rest)

/-- The loop of `collapse_empty_lines`: consecutive blank lines become one
empty line (`prev_empty` is the loop flag). -/
def collapseCore : List Str → Bool → List Str
  | [], _ => []
  | l :: rest, prevEmpty =>
    if blankB l then
      (if prevEmpty then [] else [[]]) ++ collapseCore rest true
    else
      l :: collapseCore rest false

/-- The two trailing `while` loops of `collapse_empty_lines`: pop blank
lines from the front, then from the back. -/
def trimBlanks (ls : List Str) : List Str :=
  (ls.dropWhile blankB).rdropWhile blankB

/-- `collapse_empty_lines(lines)`. -/
def collapseEmptyLines (lines : List Str) : Str :=
  myJoin (trimBlanks (collapseCore lines false))

/-! ### ANSI / control-sequence stripping (`preprocess_output`)

Each `re.sub(pattern, '', output)` of `preprocess_output` is embedded as a
left-to-right scanner that removes every (leftmost, non-overlapping) match,
which is exactly `re.sub`'s behaviour for these patterns: each of them is a
fixed prefix, then a character class repeated, then a terminating character
not in the class, so greedy matching has no backtracking alternatives. -/

def isCsiParam (c : Char) : Bool := ('0' ≤ c && c ≤ '9') || c = ';'

def isAsciiAlpha (c : Char) : Bool := ('a' ≤ c && c ≤ 'z') || ('A' ≤ c && c ≤ 'Z')

/-- One match of `\x1b\[[0-9;]*[a-zA-Z]` at the head of the string:
returns the rest after the match. -/
def csiTail : Str → Option Str
  | '\x1b' :: '[' :: rest =>
    match rest.dropWhile isCsiParam with
    | c :: r2 => if isAsciiAlpha c then some r2 else none
    | [] => none
  | _ => none

/-- One match of `\x1b\[\?[0-9;]*[a-zA-Z]` at the head of the string. -/
def csipTail : Str → Option Str
  | '\x1b' :: '[' :: '?' :: rest =>
    match rest.dropWhile isCsiParam with
    | c :: r2 => if isAsciiAlpha c then some r2 else none
    | [] => none
  | _ => none

/-- One match of `\x1b\][^\x07]*\x07` at the head of the string. -/
def oscTail : Str → Option Str
  | '\x1b' :: ']' :: rest =>
    match rest.dropWhile (fun c => !(c = '\x07')) with
    | _ :: r2 => some r2
    | [] => none
  | _ => none

/-- One match of `\x1b[()][AB012]` at the head of the string. -/
def charsetTail : Str → Option Str
  | '\x1b' :: c :: d :: rest =>
    if (c = '(' || c = ')') && (d = 'A' || d = 'B' || d = '0' || d = '1' || d = '2') then
      some rest
    else none
  | _ => none

/-- `re.sub(p, '', s)` for a head-matcher `f`: scan left to right, removing
each match and continuing after it.  Structural recursion on a fuel that
counts remaining characters; with `fuel ≥ s.length` and a shrinking `f`
(each `…_shrinks` theorem below) the `0`-case is never reached. -/
def scrubGo (f : Str → Option Str) : Nat → Str → Str
  | _, [] => []
  | 0, s => s
  | fuel + 1, c :: rest =>
    match f (c :: rest) with
    | some r => scrubGo f fuel r
    | none => c :: scrubGo f fuel rest

def scrub (f : Str → Option Str) (s : Str) : Str := scrubGo f s.length s

def stripCSI : Str → Str := scrub csiTail
def stripCSIP : Str → Str := scrub csipTail
def stripOSC : Str → Str := scrub oscTail
def stripCharset : Str → Str := scrub charsetTail

/-- The box-drawing characters removed by `preprocess_output`.  The Python
code replaces each of these (distinct, single) characters by the empty
string in sequence, which equals one filtering pass. -/
def boxChars : Str := "┌┐└┘│─├┤┬┴┼╭╮╯╰═║╔╗╚╝╠╣╦╩╬".toList

/-- `preprocess_output(output)`. -/
def preprocessOutput (output : Str) : Str :=
  if output = [] then output
  else
    let o := stripCharset (stripOSC (stripCSIP (stripCSI output)))
    let o := o.filter (fun c => !boxChars.contains c)
    collapseEmptyLines ((mySplit o).map pyRstrip)

/-! ### A small regular-expression engine

`filter_output` tests each line against the module's pattern tables with
`re.search(pattern, line, re.IGNORECASE)`.  The patterns use only literals,
the classes `\s \d \w [a-f0-9] [^X] .`, alternation, `* + ? {n} {n,}`, the
anchors `^ $` and the boundary `\b` (always after a word character here).
They are embedded as abstract syntax (`RE`) plus a backtracking matcher:
the Boolean result ("some match exists") is insensitive to greediness.
Case-insensitive matching is realised by writing the pattern literals in
lower case and lowering the line before the search. -/

inductive RE where
  | eps : RE
  | chr (c : Char) : RE
  | cls (p : Char → Bool) : RE
  | seq (a b : RE) : RE
  | alt (a b : RE) : RE
  | star (a : RE) : RE
  /-- the `$` anchor -/
  | eol : RE
  /-- `\b` placed after a word character: the next char is no word char. -/
  | nwb : RE

/-- `\w` (ASCII). -/
def isWordChar (c : Char) : Bool :=
  ('a' ≤ c && c ≤ 'z') || ('A' ≤ c && c ≤ 'Z') || ('0' ≤ c && c ≤ '9') || c = '_'

/-- Backtracking matcher in continuation style, structurally recursive on a
fuel (so the kernel can evaluate it).  `star` iterations are required to
consume input — empty iterations never change the Boolean "a match
exists" — so along every call chain the fuel drops by one per step and
`reRun`'s fuel below is always sufficient; with insufficient fuel the
matcher under-approximates (returns `false`). -/
def reMatch : Nat → RE → Str → (Str → Bool) → Bool
  | 0, _, _, _ => false
  | fuel + 1, re, s, k =>
    match re with
    | .eps => k s
    | .chr c =>
      match s with
      | [] => false
      | c2 :: r => c2 = c && k r
    | .cls p =>
      match s with
      | [] => false
      | c2 :: r => p c2 && k r
    | .seq a b => reMatch fuel a s (fun r => reMatch fuel b r k)
    | .alt a b => reMatch fuel a s k || reMatch fuel b s k
    | .star a =>
      k s || reMatch fuel a s (fun r => decide (r.length < s.length) && reMatch fuel (.star a) r k)
    | .eol => s.isEmpty && k s
    | .nwb =>
      (match s with
       | [] => true
       | c :: _ => !isWordChar c) && k s

def reSize : RE → Nat
  | .eps => 1
  | .chr _ => 1
  | .cls _ => 1
  | .seq a b => reSize a + reSize b + 1
  | .alt a b => reSize a + reSize b + 1
  | .star a => reSize a + 1
  | .eol => 1
  | .nwb => 1

/-- Does `re` match some prefix of `s`?  The fuel bounds the longest
possible call chain: each `seq`/`alt` level costs one, and each `star`
iteration costs one plus a traversal of its body while consuming at least
one character. -/
def reRun (re : RE) (s : Str) : Bool :=
  reMatch ((reSize re + 2) * (s.length + 2)) re s (fun _ => true)

/-- Does `re` match starting at some position of `s` (`re.search` without
a leading `^`)? -/
def reFind : RE → Str → Bool
  | re, [] => reRun re []
  | re, c :: rest => reRun re (c :: rest) || reFind re rest

/-- A table pattern: `anchored` records a leading `^` (no MULTILINE flag is
used, so `^` means start of string). -/
structure Pat where
  anchored : Bool
  re : RE

def patMatch (p : Pat) (line : Str) : Bool :=
  if p.anchored then reRun p.re line else reFind p.re line

/-! Combinators used to transcribe the pattern tables. -/

def rLit (s : String) : RE := s.toList.foldr (fun c r => RE.seq (RE.chr c) r) RE.eps
def rSeq (l : List RE) : RE := l.foldr RE.seq RE.eps
def rAltL : List RE → RE
  | [] => RE.cls (fun _ => false)
  | [r] => r
  | r :: r2 :: rest => RE.alt r (rAltL (r2 :: rest))
def rPlus (r : RE) : RE := RE.seq r (RE.star r)
def rOpt (r : RE) : RE := RE.alt r RE.eps
def wsStar : RE := RE.star (RE.cls isPyWs)
def wsPlus : RE := rPlus (RE.cls isPyWs)
def isDigitB (c : Char) : Bool := '0' ≤ c && c ≤ '9'
def digPlus : RE := rPlus (RE.cls isDigitB)
/-- `.` (DOTALL is not set): any character except a newline. -/
def dotAny : RE := RE.cls (fun c => !(c = '\n'))
def nonWs : RE := RE.cls (fun c => !isPyWs c)
/-- `[\w/_.]`. -/
def isPathChar (c : Char) : Bool := isWordChar c || c = '/' || c = '.'
/-- backquote (written by code point to keep source plain). -/
def bq : Char := Char.ofNat 96

def pa (re : RE) : Pat := ⟨true, re⟩
def pu (re : RE) : Pat := ⟨false, re⟩

/-- `SKIP_PATTERNS` (literals lowered for `re.IGNORECASE`). -/
def SKIP_PATTERNS : List Pat := [
  pa (rSeq [wsStar, RE.eol]),
  pa (rSeq [rPlus (RE.chr '='), RE.eol]),
  pa (rSeq [rPlus (RE.chr '-'), RE.eol]),
  pa (rSeq [rPlus (RE.chr '+'), RE.eol]),
  pa (rSeq [rPlus (RE.chr '*'), RE.eol]),
  pa (rSeq [rPlus (RE.chr '~'), RE.eol]),
  pa (rSeq [rPlus (RE.chr '#'), RE.eol]),
  pa (rSeq [wsStar, rAltL [rLit "using", rLit "fetching", rLit "downloading", rLit "installing",
    rLit "building", rLit "compiling", rLit "processing", rLit "analyzing", rLit "checking",
    rLit "validating", rLit "verifying", rLit "resolving", rLit "preparing", rLit "generating",
    rLit "creating", rLit "updating", rLit "removing", rLit "cleaning", rLit "unpacking",
    rLit "configuring", rLit "setting up"]]),
  pa (rSeq [wsStar, digPlus, RE.chr '%', wsStar, RE.chr '|', RE.star dotAny, RE.chr '|']),
  pa (rSeq [wsStar, digPlus, RE.chr '%', wsPlus, rLit "complete"]),
  pa (rSeq [wsStar, RE.chr '[', digPlus, RE.chr '/', digPlus, RE.chr ']']),
  pa (rSeq [wsStar, rLit "warn", wsStar, RE.chr ':']),
  pa (rSeq [wsStar, rLit "info", wsStar, RE.chr ':']),
  pa (rSeq [wsStar, rLit "debug", wsStar, RE.chr ':']),
  pa (rSeq [wsStar, rLit "trace", wsStar, RE.chr ':']),
  pa (rSeq [wsStar, rLit "notice", wsStar, RE.chr ':']),
  pa (rSeq [wsStar, rLit "verbose", wsStar, RE.chr ':']),
  pa (rSeq [wsStar, rLit "done in", wsPlus, digPlus]),
  pa (rSeq [wsStar, rLit "completed in", wsPlus, digPlus]),
  pa (rSeq [wsStar, rLit "finished in", wsPlus, digPlus]),
  pa (rSeq [wsStar, rLit "took", wsPlus, digPlus]),
  pa (rSeq [wsStar, rLit "time:", wsPlus, digPlus]),
  pa (rSeq [wsStar, rLit "duration:", wsPlus, digPlus]),
  pa (rSeq [wsStar, rLit "real", wsPlus, digPlus, RE.chr 'm', digPlus]),
  pa (rSeq [wsStar, rLit "user", wsPlus, digPlus, RE.chr 'm', digPlus]),
  pa (rSeq [wsStar, rLit "sys", wsPlus, digPlus, RE.chr 'm', digPlus]),
  pa (rSeq [wsStar, RE.chr '.', RE.chr '.', RE.chr '.', RE.star (RE.chr '.'), RE.eol]),
  pa (rSeq [wsStar, rLit "please wait"]),
  pa (rSeq [wsStar, rLit "loading"]),
  pa (rSeq [wsStar, rLit "spinning up"]),
  pa (rSeq [wsStar, rLit "starting"]),
  pa (rSeq [wsStar, rLit "initializing"]),
  pa (rSeq [wsStar, rLit "running"]),
  pa (rLit "npm warn"),
  pa (rLit "npm notice"),
  pa (rLit "yarn warn"),
  pa (rLit "pnpm warn"),
  pa (rLit "warning:"),
  pa (rLit "deprecation"),
  pa (rLit "deprecated"),
  pu (rLit "up to date"),
  pu (rLit "already installed"),
  pu (rLit "nothing to do"),
  pu (rLit "no changes"),
  pu (rLit "skipping"),
  pa (rSeq [wsStar, rLit "ok", wsStar, RE.eol]),
  pa (rSeq [wsStar, rLit "success", wsStar, RE.eol]),
  pa (rSeq [wsStar, rLit "pass", wsStar, RE.eol]),
  pa (rSeq [wsStar, rLit "passed", wsStar, RE.eol]),
  pa (rSeq [wsStar, rLit "fail", wsStar, RE.eol]),
  pa (rSeq [wsStar, rLit "failed", wsStar, RE.eol]),
  pa (rSeq [wsStar, rLit "error:", wsStar, RE.eol]),
  pa (rSeq [wsStar, rLit "funding", wsPlus, rLit "message"]),
  pa (rSeq [wsStar, rLit "audited", RE.nwb]),
  pu (rSeq [rLit "compiling", wsPlus]),
  pu (rSeq [rLit "finished", wsPlus, rLit "dev"]),
  pu (rSeq [rLit "running", wsPlus, rLit "unittests"]),
  pa (rSeq [wsStar, rLit "test", wsPlus, rLit "result:", wsPlus, rLit "ok"]),
  pa (rSeq [wsStar, digPlus, wsPlus, rLit "passed"]),
  pa (rSeq [wsStar, digPlus, wsPlus, rLit "test", rOpt (RE.chr 's'), wsPlus, rLit "ran"]),
  pa (rSeq [rLit "see ", RE.chr bq]),
  pa (rSeq [rLit "run ", RE.chr bq]),
  pa (rSeq [rLit "try ", RE.chr bq])
]

/-- `GIT_SENSITIVE_PATTERNS`. -/
def GIT_SENSITIVE_PATTERNS : List Pat := [
  pa (rSeq [wsStar, rAltL [rLit "created", rLit "deleted", rLit "modified", rLit "changed",
    rLit "added", rLit "removed", rLit "updated", rLit "copied", rLit "moved", rLit "renamed"],
    RE.chr ':'])
]

/-- `CATEGORY_PATTERNS.get(category, [])`. -/
def categoryPatterns (category : String) : List Pat :=
  if category = "docker" then [
    pa (rSeq [wsStar, rLit "container id"]),
    pa (rSeq [wsStar, rLit "image", wsPlus, rLit "command"]),
    pa (rSeq [wsStar, rLit "namespace"])]
  else if category = "docker-compose" then [
    pa (rSeq [wsStar, rLit "name", wsPlus, rLit "command"]),
    pu (rSeq [rLit "network", wsPlus, rPlus nonWs, wsPlus, rLit "created"]),
    pu (rSeq [rLit "container", wsPlus, rPlus nonWs, wsPlus, rAltL [rLit "started", rLit "created"]])]
  else if category = "nodejs" then [
    pa (rSeq [wsStar, rLit "up to date"]),
    pa (rSeq [wsStar, rLit "audited"]),
    pa (rSeq [wsStar, rLit "funding"]),
    pa (rSeq [rLit "added ", digPlus, rLit " packages"]),
    pa (rSeq [rLit "removed ", digPlus, rLit " packages"]),
    pa (rSeq [rLit "changed ", digPlus, rLit " packages"]),
    pa (rSeq [wsStar, rLit "packages:"]),
    pa (rSeq [wsStar, rLit "auditing"])]
  else if category = "python" then [
    pa (rSeq [wsStar, rLit "=="]),
    pa (rSeq [wsStar, rLit "---"]),
    pa (rSeq [rLit "collected ", digPlus, rLit " items"]),
    pa (rSeq [RE.chr '=', digPlus, rLit " passed"]),
    pa (rSeq [RE.chr '=', digPlus, rLit " failed"]),
    pa (rSeq [RE.chr '=', digPlus, rLit " skipped"]),
    pa (rSeq [wsStar, rLit "passed", wsStar, RE.chr '[']),
    pa (rSeq [wsStar, rLit "passed", wsStar, RE.eol])]
  else if category = "rust" then [
    pa (rSeq [wsStar, rLit "compiling"]),
    pa (rSeq [wsStar, rLit "finished"]),
    pa (rSeq [wsStar, rLit "running", RE.nwb]),
    pa (rSeq [wsStar, rLit "downloading"])]
  else if category = "git" then [
    pa (rSeq [wsStar, RE.eol]),
    pa (rSeq [wsStar, rLit "on branch"]),
    pa (rSeq [wsStar, rLit "your branch"])]
  else []

/-- The pattern list `filter_output` assembles for a category. -/
def patternsFor (category : String) : List Pat :=
  SKIP_PATTERNS ++ categoryPatterns category ++
    (if category = "git" then [] else GIT_SENSITIVE_PATTERNS)

/-- Does some pattern of `pats` match the line (`re.search` with
`re.IGNORECASE`)? -/
def lineSkip (pats : List Pat) (line : Str) : Bool :=
  pats.any (fun p => patMatch p (pyLower line))

/-- Phase 2 of `filter_output`: keep the lines matching no pattern. -/
def filterLines (category : String) (lines : List Str) : List Str :=
  lines.filter (fun l => !lineSkip (patternsFor category) l)

/-! ### `difflib.SequenceMatcher(None, a, b).ratio()`

`deduplicate_similar_lines` compares consecutive lines with difflib.
The embedding below follows CPython's `difflib.py` for `isjunk=None`:
`__chain_b` builds the map from a character to its (ascending) positions
in `b`, removing "popular" characters when `autojunk` triggers
(`len(b) >= 200`); `find_longest_match` runs the row dynamic program with
the `j < blo` / `j >= bhi` continue/break, keeping the first longest
match, then extends it over adjacent equal characters (the junk-set is
empty for `isjunk=None`, so the two junk extension loops of the original
never fire and are omitted); `get_matching_blocks` recursively splits
around each longest match, and `ratio` is `2*M/T` for `M` the total
matched size and `T` the combined length. -/

/-- `b2j[c]` after `__chain_b`: ascending positions of `c` in `b`, with
popular characters dropped when `autojunk` applies. -/
def b2jGet (b : Str) (c : Char) : List Nat :=
  let js := (List.range b.length).filter (fun j => b.getD j ' ' = c)
  if 200 ≤ b.length && js.length > b.length / 100 + 1 then [] else js

def lookupD (m : List (Nat × Nat)) (j : Nat) : Nat :=
  match m with
  | [] => 0
  | (a, v) :: rest => if a = j then v else lookupD rest j

/-- One row of `find_longest_match`'s dynamic program: walk the positions
of `a[i]` in `b`, building `newj2len` and updating the best match.
CPython reads `j2len.get(j-1, 0)`: for `j = 0` the key `-1` is never
present, so the lookup yields 0 — hence the explicit `j = 0` guard
(plain Nat subtraction would alias `j - 1` to key 0). -/
def flmRow (i blo bhi : Nat) (j2lenOld : List (Nat × Nat)) :
    List Nat → List (Nat × Nat) → Nat × Nat × Nat → List (Nat × Nat) × (Nat × Nat × Nat)
  | [], acc, best => (acc, best)
  | j :: js, acc, best =>
    if j < blo then flmRow i blo bhi j2lenOld js acc best
    else if bhi ≤ j then (acc, best)
    else
      let k := (if j = 0 then 0 else lookupD j2lenOld (j - 1)) + 1
      let best2 := if k > best.2.2 then (i + 1 - k, j + 1 - k, k) else best
      flmRow i blo bhi j2lenOld js (acc ++ [(j, k)]) best2

def flmLoop (b : Str) (a : Str) (blo bhi : Nat) :
    List Nat → List (Nat × Nat) → Nat × Nat × Nat → Nat × Nat × Nat
  | [], _, best => best
  | i :: is, j2len, best =>
    let row := flmRow i blo bhi j2len (b2jGet b (a.getD i ' ')) [] best
    flmLoop b a blo bhi is row.1 row.2

/-- The first post-loop `while` of `find_longest_match` (no junk). -/
def extendL (a b : Str) (alo blo : Nat) : Nat → Nat × Nat × Nat → Nat × Nat × Nat
  | 0, best => best
  | fuel + 1, (besti, bestj, bestsize) =>
    if alo < besti && blo < bestj && a.getD (besti - 1) '\x00' = b.getD (bestj - 1) '\x01' then
      extendL a b alo blo fuel (besti - 1, bestj - 1, bestsize + 1)
    else (besti, bestj, bestsize)

/-- The second post-loop `while` of `find_longest_match` (no junk). -/
def extendR (a b : Str) (ahi bhi : Nat) : Nat → Nat × Nat × Nat → Nat × Nat × Nat
  | 0, best => best
  | fuel + 1, (besti, bestj, bestsize) =>
    if besti + bestsize < ahi && bestj + bestsize < bhi &&
        a.getD (besti + bestsize) '\x00' = b.getD (bestj + bestsize) '\x01' then
      extendR a b ahi bhi fuel (besti, bestj, bestsize + 1)
    else (besti, bestj, bestsize)

/-- `find_longest_match(alo, ahi, blo, bhi)`. -/
def flm (a b : Str) (alo ahi blo bhi : Nat) : Nat × Nat × Nat :=
  let best := flmLoop b a blo bhi (List.range' alo (ahi - alo)) [] (alo, blo, 0)
  let best := extendL a b alo blo (a.length + 1) best
  extendR a b ahi bhi (a.length + 1) best

/-- The total size of the matching blocks of `get_matching_blocks`
restricted to the window: the recursion splits around each longest match.
The queue order of the original is irrelevant for the sum. -/
def matchSumGo (a b : Str) : Nat → Nat → Nat → Nat → Nat → Nat
  | 0, _, _, _, _ => 0
  | fuel + 1, alo, ahi, blo, bhi =>
    let x := flm a b alo ahi blo bhi
    let i := x.1
    let j := x.2.1
    let k := x.2.2
    if k = 0 then 0
    else
      k + (if alo < i && blo < j then matchSumGo a b fuel alo i blo j else 0) +
        (if i + k < ahi && j + k < bhi then matchSumGo a b fuel (i + k) ahi (j + k) bhi else 0)

/-- `sum(size for (_, _, size) in get_matching_blocks())`. -/
def matchSum (a b : Str) : Nat :=
  matchSumGo a b (a.length + b.length + 1) 0 a.length 0 b.length

/-- `SequenceMatcher(None, a, b).ratio() >= 0.8`, as the exact rational
comparison `2*M/(|a|+|b|) ≥ 4/5` (for `|a|+|b| = 0` the ratio is defined
as `1.0`, and `0 ≥ 0` agrees). -/
def isSimilar (a b : Str) : Bool := decide (2 * (a.length + b.length) ≤ 5 * matchSum a b)

/-! ### `deduplicate_similar_lines` -/

/-- The inner `while j < len(lines)` scan: how many lines directly after
the anchor are non-blank and similar to the anchor. -/
def takeSimilarCount (anchor : Str) : List Str → Nat
  | [] => 0
  | n :: rest =>
    if blankB n then 0
    else if isSimilar anchor n then takeSimilarCount anchor rest + 1
    else 0

/-- `f"{line} [... {len(group)} similar lines]"`'s suffix. -/
def simSuffix (n : Nat) : Str :=
  " [... ".toList ++ (Nat.repr n).toList ++ " similar lines]".toList

/-- The main scan of `deduplicate_similar_lines`.  Structural recursion on
a fuel with `fuel ≥ lines.length`; the scan consumes at least one line per
step, so the `0`-case is never reached. -/
def dedupGo : Nat → List Str → List Str
  | _, [] => []
  | 0, ls => ls
  | fuel + 1, l :: rest =>
    if blankB l then l :: dedupGo fuel rest
    else
      let k := takeSimilarCount l rest
      if k + 1 > 3 then (l ++ simSuffix (k + 1)) :: dedupGo fuel (rest.drop k)
      else (l :: rest.take k) ++ dedupGo fuel (rest.drop k)

/-- `deduplicate_similar_lines(lines)` (default threshold 0.8). -/
def dedupSimilar (lines : List Str) : List Str :=
  if lines.length ≤ 2 then lines else dedupGo lines.length lines

/-! ### `compact_git_status` -/

/-- One match of `\s*\(use "[^"]+"\s+[^)]+\)` at the head of the string.
`[^"]+` cannot cross its closing quote and `[^)]+` cannot cross the
closing parenthesis, so the quote matched is the first quote and the
parenthesis the first parenthesis; `\s+[^)]+` (whitespace is not `)`)
amounts to: the segment before that parenthesis starts with whitespace
and has at least two characters. -/
def hintTail1 (s : Str) : Option Str :=
  match s.dropWhile isPyWs with
  | '(' :: 'u' :: 's' :: 'e' :: ' ' :: '"' :: t2 =>
    let seg1 := t2.takeWhile (fun c => !(c = '"'))
    if seg1.isEmpty then none
    else
      match t2.drop seg1.length with
      | '"' :: t3 =>
        let seg2 := t3.takeWhile (fun c => !(c = ')'))
        if 2 ≤ seg2.length && decide (seg2.length < t3.length) &&
            (match seg2 with | c :: _ => isPyWs c | [] => false) then
          some (t3.drop (seg2.length + 1))
        else none
      | _ => none
  | _ => none

/-- One match of `\s*\(use "[^"]+"\)` at the head of the string. -/
def hintTail2 (s : Str) : Option Str :=
  match s.dropWhile isPyWs with
  | '(' :: 'u' :: 's' :: 'e' :: ' ' :: '"' :: t2 =>
    let seg1 := t2.takeWhile (fun c => !(c = '"'))
    if seg1.isEmpty then none
    else
      match t2.drop seg1.length with
      | '"' :: ')' :: t3 => some t3
      | _ => none
  | _ => none

/-- The two usage-hint `re.sub`s applied to every line. -/
def stripHints (l : Str) : Str := scrub hintTail2 (scrub hintTail1 l)

/-- The `status_map` of `compact_git_status`, in insertion order. -/
def gitStatusMap : List (Str × Char) :=
  [("modified:".toList, 'M'), ("deleted:".toList, 'D'), ("new file:".toList, 'A'),
   ("renamed:".toList, 'R'), ("copied:".toList, 'C'), ("type changed:".toList, 'T')]

/-- `re.search(rf'{re.escape(status)}\s+(.+)', line, re.IGNORECASE)` and
`match.group(1).strip()`: find the leftmost position where the phrase
occurs (case-insensitively) followed by `\s+(.+)`.  After the phrase,
`\s+` greedily takes the whitespace run; if that exhausts the line, it
backtracks one character (`.` also matches whitespace), leaving a single
whitespace character as group 1, which strips to the empty path. -/
def extractPath (phrase : Str) : Str → Option Str
  | [] => none
  | c :: rest =>
    if phrase.isPrefixOf (pyLower (c :: rest)) then
      let r2 := (c :: rest).drop phrase.length
      let w := (r2.takeWhile isPyWs).length
      if w = 0 then extractPath phrase rest
      else if w < r2.length then some (pyStrip (r2.drop w))
      else if 2 ≤ r2.length then some (pyStrip (r2.drop (r2.length - 1)))
      else extractPath phrase rest
    else extractPath phrase rest

/-- The `for status, code in status_map.items()` loop: on a substring hit
with a successful path extraction, emit `f'{code} {file_path}'` and break;
otherwise keep trying the next phrase. -/
def tryCompact : List (Str × Char) → Str → Option Str
  | [], _ => none
  | (phrase, code) :: rest, l =>
    if subIn phrase (pyLower l) then
      match extractPath phrase l with
      | some path => some (code :: ' ' :: path)
      | none => tryCompact rest l
    else tryCompact rest l

/-- `re.sub(r'^\s*On branch \S+\s*$', '', line)`. -/
def bnOnBranch (l : Str) : Str :=
  let t := l.dropWhile isPyWs
  if ("On branch ".toList).isPrefixOf t then
    let r := t.drop 10
    let nw := r.takeWhile (fun c => !isPyWs c)
    if !nw.isEmpty && (r.drop nw.length).all isPyWs then [] else l
  else l

/-- `re.sub(r'^\s*Your branch is [^.]+\.\s*$', '', line)`. -/
def bnYourBranch (l : Str) : Str :=
  let t := l.dropWhile isPyWs
  if ("Your branch is ".toList).isPrefixOf t then
    let r := t.drop 15
    let seg := r.takeWhile (fun c => !(c = '.'))
    if !seg.isEmpty && decide (seg.length < r.length) && (r.drop (seg.length + 1)).all isPyWs then
      []
    else l
  else l

/-- `re.sub(r'^\s*nothing to commit,?\s*', '', line)`. -/
def bnNothing (l : Str) : Str :=
  let t := l.dropWhile isPyWs
  if ("nothing to commit".toList).isPrefixOf t then
    let r := t.drop 17
    let r2 := match r with
      | ',' :: rr => rr
      | _ => r
    r2.dropWhile isPyWs
  else l

/-- `re.sub(r'^\s*working tree clean\s*$', '', line)`. -/
def bnClean (l : Str) : Str :=
  let t := l.dropWhile isPyWs
  if ("working tree clean".toList).isPrefixOf t && (t.drop 18).all isPyWs then [] else l

/-- The body of `compact_git_status`'s per-line loop: 0 or 1 output
lines per input line. -/
def processGitLine (line : Str) : List Str :=
  let l := stripHints line
  match tryCompact gitStatusMap l with
  | some out => [out]
  | none =>
    let l2 := bnClean (bnNothing (bnYourBranch (bnOnBranch l)))
    if blankB l2 then [] else [l2]

/-- `compact_git_status(output)`. -/
def compactGitStatus (output : Str) : Str :=
  myJoin ((mySplit output).flatMap processGitLine)

/-! ### `compact_pytest_output` -/

/-- `re.match(r'^\s*[\w/_.]+\s+PASSED\s*\[', line)` (case-sensitive). -/
def pytestProgressRe (line : Str) : Bool :=
  reRun (rSeq [wsStar, rPlus (RE.cls isPathChar), wsPlus, rLit "PASSED", wsStar, RE.chr '[']) line

/-- `re.match(r'^=+$', line.strip())`. -/
def pytestSepRe (line : Str) : Bool :=
  reRun (RE.seq (rPlus (RE.chr '=')) RE.eol) (pyStrip line)

/-- `'FAILED' in line or 'ERROR' in line or 'error:' in line.lower()`:
note that only the third test is case-insensitive. -/
def pytestTrigger (l : Str) : Bool :=
  subIn "FAILED".toList l || subIn "ERROR".toList l || subIn "error:".toList (pyLower l)

/-- `line.startswith(('assert', 'E ', '>', 'FAILED', 'ERROR'))`. -/
def pytestMarker (l : Str) : Bool :=
  ["assert", "E ", ">", "FAILED", "ERROR"].any (fun p => p.toList.isPrefixOf l)

/-- One iteration of `compact_pytest_output`'s loop: from the
`in_failure` flag and the line, the new flag and the emitted lines. -/
def pytestStep (inF : Bool) (line : Str) : Bool × List Str :=
  if pytestTrigger line then (true, [line])
  else if inF then
    let inF2 := !(!blankB line && !startsSpace line)
    (inF2, if inF2 || pytestMarker line then [line] else [])
  else if subIn "PASSED".toList line then (false, [])
  else if pytestProgressRe line then (false, [])
  else if pytestSepRe line then (false, [])
  else if ("collected".toList).isPrefixOf (pyStrip line) then (false, [])
  else if subIn "failed".toList (pyLower line) || subIn "error".toList (pyLower line) ||
      !subIn "passed".toList (pyLower line) then
    (false, if blankB line then [] else [line])
  else (false, [])

def pytestGo : Bool → List Str → List Str
  | _, [] => []
  | inF, l :: rest => (pytestStep inF l).2 ++ pytestGo (pytestStep inF l).1 rest

/-- `compact_pytest_output(output)`. -/
def compactPytest (output : Str) : Str := myJoin (pytestGo false (mySplit output))

/-! ### `compact_docker_output` -/

def isHexDigitLower (c : Char) : Bool := ('a' ≤ c && c ≤ 'f') || ('0' ≤ c && c ≤ '9')

/-- `re.sub(r'\b([a-f0-9]{12})\b', lambda m: m.group(1)[:7], line)`:
scan with the word-character status of the previous character for the
left `\b`; the right `\b` requires the following character (if any) not
to be a word character. -/
def truncGo : Nat → Bool → Str → Str
  | _, _, [] => []
  | 0, _, s => s
  | fuel + 1, prevW, c :: rest =>
    let s := c :: rest
    if !prevW && decide (12 ≤ s.length) && (s.take 12).all isHexDigitLower &&
        (match s.drop 12 with | [] => true | d :: _ => !isWordChar d) then
      s.take 7 ++ truncGo fuel true (s.drop 12)
    else c :: truncGo fuel (isWordChar c) rest

/-- The three header `re.match` tests of `compact_docker_output`. -/
def dockerHdr (l : Str) : Bool :=
  reRun (rSeq [wsStar, rLit "CONTAINER ID", wsPlus, rLit "IMAGE"]) l ||
  reRun (rSeq [wsStar, rLit "REPOSITORY", wsPlus, rLit "TAG"]) l ||
  reRun (rSeq [wsStar, rLit "NAMESPACE", wsPlus, rLit "NAME"]) l

/-- The fixed shape `\d{4}-\d{2}-\d{2} \d{2}:\d{2}:\d{2}`. -/
def tsShape : List (Char → Bool) :=
  [isDigitB, isDigitB, isDigitB, isDigitB, (fun c => c = '-'), isDigitB, isDigitB,
   (fun c => c = '-'), isDigitB, isDigitB, (fun c => c = ' '), isDigitB, isDigitB,
   (fun c => c = ':'), isDigitB, isDigitB, (fun c => c = ':'), isDigitB, isDigitB]

def matchShape : List (Char → Bool) → Str → Option Str
  | [], s => some s
  | _ :: _, [] => none
  | p :: ps, c :: s => if p c then matchShape ps s else none

/-- `re.sub` removing every timestamp of the fixed shape. -/
def stripTs : Str → Str := scrub (matchShape tsShape)

/-- `compact_docker_output(output)`. -/
def compactDocker (output : Str) : Str :=
  myJoin ((mySplit output).flatMap (fun line =>
    let l1 := truncGo line.length false line
    if dockerHdr l1 then []
    else
      let l2 := stripTs l1
      if blankB l2 then [] else [l2]))

/-! ### `postprocess_output` and `filter_output` -/

/-- `postprocess_output(output, category)`. -/
def postprocessOutput (output : Str) (category : String) : Str :=
  if output = [] then output
  else if category = "git" then compactGitStatus output
  else if category = "python" then compactPytest output
  else if category = "docker" || category = "docker-compose" then compactDocker output
  else output

/-- `filter_output(output, category)`: preprocess, filter, deduplicate,
postprocess, and a final `collapse_empty_lines`. -/
def filterOutput (output : Str) (category : String) : Str :=
  if output = [] then output
  else
    let o1 := preprocessOutput output
    let filtered := filterLines category (mySplit o1)
    let dd := dedupSimilar filtered
    let result := postprocessOutput (myJoin dd) category
    collapseEmptyLines (mySplit result)

/-- The lines of a string, with the empty string having no lines (as in
Python's `''.splitlines() == []`); a nonempty string splits on `'\n'`. -/
def strLines (s : Str) : List Str := if s = [] then [] else mySplit s

/-- The blank-collapse shape: no two consecutive blank lines, and neither
the first nor the last line is blank. -/
def goodLines (ls : List Str) : Prop :=
  List.Chain' (fun a b => ¬(blankB a = true ∧ blankB b = true)) ls ∧
  (∀ h, ls.head? = some h → blankB h = false) ∧
  (∀ h, ls.getLast? = some h → blankB h = false)

/-- The four-line example of the deduplication claim. -/
def pkgAnchor : Str := "Downloading package-1".toList

def pkgRest : List Str :=
  ["Downloading package-2".toList, "Downloading package-3".toList,
   "Downloading package-4".toList]

/-- The ANSI color wrapper sequences of the round-trip claim:
`esc31` is `ESC[31m` and `esc0` is `ESC[0m`. -/
def esc31 : Str := ['\x1b', '[', '3', '1', 'm']

def esc0 : Str := ['\x1b', '[', '0', 'm']

/-! ### Helper lemmas -/

theorem csiTail_shrinks : ∀ s r, csiTail s = some r → r.length < s.length := by
  intro s r h
  unfold csiTail at h
  split at h
  · rename_i rest
    split at h
    · rename_i c r2 heq
      split at h
      · cases h
        have h3 := (List.dropWhile_suffix (l := rest) isCsiParam).sublist.length_le
        rw [heq] at h3
        simp only [List.length_cons] at h3 ⊢
        omega
      · cases h
    · cases h
  · cases h

theorem csipTail_shrinks : ∀ s r, csipTail s = some r → r.length < s.length := by
  intro s r h
  unfold csipTail at h
  split at h
  · rename_i rest
    split at h
    · rename_i c r2 heq
      split at h
      · cases h
        have h3 := (List.dropWhile_suffix (l := rest) isCsiParam).sublist.length_le
        rw [heq] at h3
        simp only [List.length_cons] at h3 ⊢
        omega
      · cases h
    · cases h
  · cases h

theorem oscTail_shrinks : ∀ s r, oscTail s = some r → r.length < s.length := by
  intro s r h
  unfold oscTail at h
  split at h
  · rename_i rest
    split at h
    · rename_i c r2 heq
      cases h
      have h3 := (List.dropWhile_suffix (l := rest) (fun c => !(c = '\x07'))).sublist.length_le
      rw [heq] at h3
      simp only [List.length_cons] at h3 ⊢
      omega
    · cases h
  · cases h

theorem charsetTail_shrinks : ∀ s r, charsetTail s = some r → r.length < s.length := by
  intro s r h
  unfold charsetTail at h
  split at h
  · rename_i c d rest
    split at h
    · cases h
      simp only [List.length_cons]
      omega
    · cases h
  · cases h

theorem blankB_all_ws {l : Str} (h : blankB l = true) : ∀ c ∈ l, isPyWs c = true := by
  intro c hc
  have hstrip : pyStrip l = [] := by
    unfold blankB at h
    exact List.isEmpty_iff.mp h
  unfold pyStrip pyRstrip at hstrip
  have h2 : ∀ x ∈ pyLstrip l, isPyWs x = true :=
    fun x hx => List.rdropWhile_eq_nil_iff.mp hstrip x hx
  rw [← List.takeWhile_append_dropWhile (p := isPyWs) (l := l)] at hc
  rcases List.mem_append.mp hc with hmem | hmem
  · exact List.mem_takeWhile_imp hmem
  · exact h2 _ hmem

theorem isPrefixOf_subset : ∀ {pat s : Str}, pat.isPrefixOf s = true → ∀ c ∈ pat, c ∈ s := by
  intro pat
  induction pat with
  | nil =>
    intro s _ c hc
    simp at hc
  | cons a as ih =>
    intro s h c hc
    cases s with
    | nil => simp [List.isPrefixOf] at h
    | cons b bs =>
      rw [List.isPrefixOf, Bool.and_eq_true] at h
      have hab : a = b := eq_of_beq h.1
      rcases List.mem_cons.mp hc with rfl | hc2
      · exact hab ▸ List.mem_cons_self _ _
      · exact List.mem_cons_of_mem _ (ih h.2 c hc2)

theorem subIn_mem {pat s : Str} (h : subIn pat s = true) : ∀ c ∈ pat, c ∈ s := by
  induction s with
  | nil =>
    intro c hc
    unfold subIn at h
    rw [List.isEmpty_iff.mp h] at hc
    simp at hc
  | cons d rest ih =>
    intro c hc
    unfold subIn at h
    rcases Bool.or_eq_true_iff.mp h with h1 | h1
    · exact isPrefixOf_subset h1 c hc
    · exact List.mem_cons_of_mem _ (ih h1 c hc)

theorem toLower_of_ws {c : Char} (h : isPyWs c = true) : Char.toLower c = c := by
  simp only [isPyWs, Bool.or_eq_true, decide_eq_true_eq] at h
  rcases h with ((((h | h) | h) | h) | h) | h <;> subst h <;> decide

theorem pytestTrigger_of_blank {l : Str} (h : blankB l = true) : pytestTrigger l = false := by
  have hws := blankB_all_ws h
  unfold pytestTrigger
  have h1 : subIn "FAILED".toList l = false := by
    cases hF : subIn "FAILED".toList l with
    | false => rfl
    | true =>
      have hmem := subIn_mem hF 'F' (by decide)
      exact absurd (hws _ hmem) (by decide)
  have h2 : subIn "ERROR".toList l = false := by
    cases hF : subIn "ERROR".toList l with
    | false => rfl
    | true =>
      have hmem := subIn_mem hF 'E' (by decide)
      exact absurd (hws _ hmem) (by decide)
  have h3 : subIn "error:".toList (pyLower l) = false := by
    cases hF : subIn "error:".toList (pyLower l) with
    | false => rfl
    | true =>
      have hmem := subIn_mem hF 'e' (by decide)
      rcases List.mem_map.mp hmem with ⟨c, hcl, hlow⟩
      have hw := hws _ hcl
      rw [toLower_of_ws hw] at hlow
      subst hlow
      exact absurd hw (by decide)
  rw [h1, h2, h3]
  rfl

theorem pytestGo_mem_of_trigger {l : Str} (h : pytestTrigger l = true) :
    ∀ (lines : List Str) (st : Bool), l ∈ lines → l ∈ pytestGo st lines := by
  intro lines
  induction lines with
  | nil => intro st hm; simp at hm
  | cons x rest ih =>
    intro st hm
    unfold pytestGo
    rcases List.mem_cons.mp hm with rfl | hm2
    · have hstep : pytestStep st l = (true, [l]) := by
        simp [pytestStep, h]
      rw [hstep]
      exact List.mem_append_left _ (List.mem_singleton.mpr rfl)
    · exact List.mem_append_right _ (ih _ hm2)

theorem takeSimilar_members (l : Str) :
    ∀ rest : List Str, ∀ m ∈ rest.take (takeSimilarCount l rest),
      blankB m = false ∧ isSimilar l m = true := by
  intro rest
  induction rest with
  | nil => simp
  | cons n rs ih =>
    intro m hm
    unfold takeSimilarCount at hm
    by_cases hb : blankB n
    · simp [hb] at hm
    · by_cases hs : isSimilar l n
      · simp only [hb, Bool.false_eq_true, if_false, hs, if_true, List.take_succ_cons] at hm
        rcases List.mem_cons.mp hm with rfl | hm2
        · exact ⟨by simpa using hb, by simpa using hs⟩
        · exact ih m hm2
      · simp [hb, hs] at hm

/-- C1: for every input string and every category label, `filter_output`
terminates and returns a string, never raising: the embedding is a total
computable function on all of `Str × String`, including malformed text. -/
theorem claim_C1_total (output : Str) (category : String) :
    ∃ r : Str, filterOutput output category = r :=
  ⟨filterOutput output category, rfl⟩

set_option maxRecDepth 2000000 in
/-- C3 counterexample: the pipeline is not idempotent.  Four identical
lines `abcCompiling` (matching no skip pattern) deduplicate to
`abcCompiling [... 4 similar lines]`, which matches the skip pattern
`Compiling\s+` on the second run, so the second run returns the empty
string. -/
theorem claim_C3_counterexample :
    filterOutput
        (filterOutput "abcCompiling\nabcCompiling\nabcCompiling\nabcCompiling".toList "misc")
        "misc"
      ≠ filterOutput "abcCompiling\nabcCompiling\nabcCompiling\nabcCompiling".toList "misc" := by
  decide

/-- C3 amended: the line-filter stage by itself is idempotent — filtering
an already-filtered line sequence removes nothing further — but the full
pipeline run twice need not equal one run, because deduplication can
append a count suffix that makes a line match a skip pattern. -/
theorem claim_C3_amended (category : String) (lines : List Str) :
    filterLines category (filterLines category lines) = filterLines category lines := by
  simp [filterLines, List.filter_filter]

/-- C4: under git-category compaction, `        modified:   src/app.ts`
becomes `M src/app.ts`, a tab-indented `new file:   src/new.ts` becomes
`A src/new.ts`, and the `(use "git add <file>..." ...)` hint line is
removed entirely. -/
theorem claim_C4_git_examples :
    compactGitStatus "        modified:   src/app.ts".toList = "M src/app.ts".toList ∧
    compactGitStatus "\tnew file:   src/new.ts".toList = "A src/new.ts".toList ∧
    compactGitStatus "  (use \"git add <file>...\" to update what will be committed)".toList
      = [] ∧
    compactGitStatus
        ("        modified:   src/app.ts\n\tnew file:   src/new.ts\n" ++
          "  (use \"git add <file>...\" to update what will be committed)").toList
      = "M src/app.ts\nA src/new.ts".toList := by
  refine ⟨by decide, by decide, by decide, by decide⟩

set_option maxRecDepth 2000000 in
/-- C5: deduplication at threshold 0.8 collapses the four `Downloading
package-N` lines to `Downloading package-1 [... 4 similar lines]`; in
general, from a non-blank anchor the run extends over the following
non-blank anchor-similar lines, a run of more than 3 members is replaced
by the anchor plus a member count, and a run of at most 3 members is
emitted unchanged. -/
theorem claim_C5_dedup :
    (dedupSimilar ["Downloading package-1".toList, "Downloading package-2".toList,
        "Downloading package-3".toList, "Downloading package-4".toList]
      = ["Downloading package-1 [... 4 similar lines]".toList]) ∧
    (∀ (l : Str) (rest : List Str), 2 < (l :: rest).length → blankB l = false →
      (∀ m ∈ rest.take (takeSimilarCount l rest), blankB m = false ∧ isSimilar l m = true) ∧
      dedupSimilar (l :: rest) =
        (if takeSimilarCount l rest + 1 > 3 then
          (l ++ simSuffix (takeSimilarCount l rest + 1)) ::
            dedupGo rest.length (rest.drop (takeSimilarCount l rest))
        else (l :: rest.take (takeSimilarCount l rest)) ++
            dedupGo rest.length (rest.drop (takeSimilarCount l rest)))) := by
  constructor
  · decide
  · intro l rest hlen hblank
    refine ⟨takeSimilar_members l rest, ?_⟩
    unfold dedupSimilar
    rw [if_neg (by simp only [List.length_cons] at hlen ⊢; omega)]
    show dedupGo (rest.length + 1) (l :: rest) = _
    simp only [dedupGo, hblank, Bool.false_eq_true, if_false]

set_option maxRecDepth 2000000 in
/-- Witness for C5's general law at the four `Downloading package-N`
lines. -/
theorem claim_C5_dedup_witness :
    2 < (pkgAnchor :: pkgRest).length ∧ blankB pkgAnchor = false ∧
    ((∀ m ∈ pkgRest.take (takeSimilarCount pkgAnchor pkgRest),
        blankB m = false ∧ isSimilar pkgAnchor m = true) ∧
      dedupSimilar (pkgAnchor :: pkgRest) =
        (if takeSimilarCount pkgAnchor pkgRest + 1 > 3 then
          (pkgAnchor ++ simSuffix (takeSimilarCount pkgAnchor pkgRest + 1)) ::
            dedupGo pkgRest.length (pkgRest.drop (takeSimilarCount pkgAnchor pkgRest))
        else (pkgAnchor :: pkgRest.take (takeSimilarCount pkgAnchor pkgRest)) ++
            dedupGo pkgRest.length (pkgRest.drop (takeSimilarCount pkgAnchor pkgRest)))) :=
  ⟨by decide, by decide, claim_C5_dedup.2 pkgAnchor pkgRest (by decide) (by decide)⟩

set_option maxRecDepth 2000000 in
/-- C6 counterexample: for the unknown category `misc`, the line
`modified: foo` is dropped by `filter_output` although it matches no
universal skip pattern — the status-change (git-sensitive) pattern set is
also consulted, so the line filter does not apply only the universal
patterns. -/
theorem claim_C6_counterexample :
    filterOutput "modified: foo".toList "misc" = [] ∧
    SKIP_PATTERNS.all (fun p => !patMatch p (pyLower "modified: foo".toList)) = true ∧
    lineSkip GIT_SENSITIVE_PATTERNS "modified: foo".toList = true := by
  refine ⟨by decide, by decide, by decide⟩

/-- C6 amended: a category outside the known set receives the universal
skip patterns plus the status-change (git-sensitive) patterns — the
latter are applied to every category except `git` — and no
category-specific additions; its compaction stage is the identity, so an
unrecognized label is never an error. -/
theorem claim_C6_unknown_category (category : String) (out : Str)
    (h1 : category ≠ "docker") (h2 : category ≠ "docker-compose") (h3 : category ≠ "nodejs")
    (h4 : category ≠ "python") (h5 : category ≠ "rust") (h6 : category ≠ "git") :
    patternsFor category = SKIP_PATTERNS ++ GIT_SENSITIVE_PATTERNS ∧
    postprocessOutput out category = out := by
  constructor
  · simp [patternsFor, categoryPatterns, h1, h2, h3, h4, h5, h6]
  · by_cases hout : out = [] <;>
      simp [postprocessOutput, h1, h2, h4, h6, hout]

/-- Witness for C6's amended claim at the unknown label `misc`. -/
theorem claim_C6_unknown_category_witness :
    ("misc" ≠ "docker") ∧ ("misc" ≠ "docker-compose") ∧ ("misc" ≠ "nodejs") ∧
    ("misc" ≠ "python") ∧ ("misc" ≠ "rust") ∧ ("misc" ≠ "git") ∧
    (patternsFor "misc" = SKIP_PATTERNS ++ GIT_SENSITIVE_PATTERNS ∧
     postprocessOutput "hello".toList "misc" = "hello".toList) :=
  ⟨by decide, by decide, by decide, by decide, by decide, by decide,
   claim_C6_unknown_category "misc" "hello".toList (by decide) (by decide) (by decide)
     (by decide) (by decide) (by decide)⟩

/-- C7 counterexample: the code's failure triggers are case-sensitive for
`FAILED`/`ERROR`.  The line `x failed` contains `failed`
case-insensitively, yet it does not start a failure block (the flag stays
`false`), and the following indented `PASSED` line is consequently
dropped rather than kept as failure context. -/
theorem claim_C7_counterexample :
    subIn "failed".toList (pyLower "x failed".toList) = true ∧
    pytestStep false "x failed".toList = (false, ["x failed".toList]) ∧
    pytestGo false ["x failed".toList, "  y PASSED".toList] = ["x failed".toList] := by
  refine ⟨by decide, by decide, by decide⟩

/-- C7 amended: every line containing `FAILED` or `ERROR` (case
sensitively) or `error:` (case-insensitively) starts or continues a
failure block — the flag becomes `true` and exactly that line is emitted
by the step — and such a line always appears in the compactor's
output. -/
theorem claim_C7_triggers_kept (st st2 : Bool) (l : Str) (lines : List Str)
    (h : pytestTrigger l = true) (hmem : l ∈ lines) :
    pytestStep st l = (true, [l]) ∧ l ∈ pytestGo st2 lines :=
  ⟨by simp [pytestStep, h], pytestGo_mem_of_trigger h lines st2 hmem⟩

/-- Witness for C7's amended claim at the line `FAILED test_x`. -/
theorem claim_C7_triggers_kept_witness :
    pytestTrigger "FAILED test_x".toList = true ∧
    "FAILED test_x".toList ∈ ["3 passed".toList, "FAILED test_x".toList] ∧
    (pytestStep false "FAILED test_x".toList = (true, ["FAILED test_x".toList]) ∧
      "FAILED test_x".toList ∈ pytestGo true ["3 passed".toList, "FAILED test_x".toList]) :=
  ⟨by decide, by decide,
   claim_C7_triggers_kept false true "FAILED test_x".toList
     ["3 passed".toList, "FAILED test_x".toList] (by decide) (by decide)⟩

/-- C9 counterexample: the line `modified:   ` (trailing whitespace only)
contains a status phrase with no non-whitespace text after it, yet it IS
compacted: `\s+` backtracks one character because `.` also matches
whitespace, the captured group strips to the empty path, and the line
becomes `M ` instead of being emitted unchanged. -/
theorem claim_C9_counterexample :
    subIn "modified:".toList (pyLower "modified:   ".toList) = true ∧
    pyStrip (("modified:   ".toList).drop 9) = [] ∧
    processGitLine "modified:   ".toList = ["M ".toList] ∧
    compactGitStatus "modified:   ".toList = "M ".toList := by
  refine ⟨by decide, by decide, by decide, by decide⟩

/-- C9 amended: a line on which path extraction fails for every status
phrase (in particular one where a phrase is followed by no character, or
by exactly one whitespace character and nothing else) is neither
compacted nor dropped: after usage-hint stripping — and provided no
branch-banner substitution rewrites it and it is not blank — it is
emitted unchanged. -/
theorem claim_C9_no_path_no_compact (line : Str)
    (h1 : tryCompact gitStatusMap (stripHints line) = none)
    (h2 : bnClean (bnNothing (bnYourBranch (bnOnBranch (stripHints line)))) = stripHints line)
    (h3 : blankB (stripHints line) = false) :
    processGitLine line = [stripHints line] := by
  unfold processGitLine
  simp [h1, h2, h3]

/-- Witness for C9's amended claim at the bare line `modified:`. -/
theorem claim_C9_no_path_no_compact_witness :
    tryCompact gitStatusMap (stripHints "modified:".toList) = none ∧
    bnClean (bnNothing (bnYourBranch (bnOnBranch (stripHints "modified:".toList))))
      = stripHints "modified:".toList ∧
    blankB (stripHints "modified:".toList) = false ∧
    processGitLine "modified:".toList = [stripHints "modified:".toList] :=
  ⟨by decide, by decide, by decide,
   claim_C9_no_path_no_compact "modified:".toList (by decide) (by decide) (by decide)⟩

/-- C10: a blank (empty or whitespace-only) line met while inside a
failure block does not end the block — the flag stays `true` — and the
line itself is emitted, although it is neither indented nor a marker
line. -/
theorem claim_C10_blank_in_failure (line : Str) (h : blankB line = true) :
    pytestStep true line = (true, [line]) := by
  have htrig := pytestTrigger_of_blank h
  simp [pytestStep, htrig, h]

/-- Witness for C10 at a whitespace-only line. -/
theorem claim_C10_blank_in_failure_witness :
    blankB "  ".toList = true ∧ pytestStep true "  ".toList = (true, ["  ".toList]) :=
  ⟨by decide, claim_C10_blank_in_failure "  ".toList (by decide)⟩

/-! ### Lemmas for the blank-collapse shape (C2) -/

theorem mySplit_ne_nil (s : Str) : mySplit s ≠ [] := by
  induction s with
  | nil => simp [mySplit]
  | cons c rest ih =>
    unfold mySplit
    by_cases hc : c = '\n'
    · simp [hc]
    · simp only [hc, if_false]
      rcases h : mySplit rest with _ | ⟨l, ls⟩
      · simp
      · simp

theorem noNl_mySplit (s : Str) : ∀ l ∈ mySplit s, '\n' ∉ l := by
  induction s with
  | nil => simp [mySplit]
  | cons c rest ih =>
    intro l hl
    unfold mySplit at hl
    by_cases hc : c = '\n'
    · simp only [hc, if_pos rfl] at hl
      rcases List.mem_cons.mp hl with rfl | h2
      · simp
      · exact ih l h2
    · simp only [hc, if_false] at hl
      rcases h : mySplit rest with _ | ⟨m, ms⟩
      · rw [h] at hl
        rcases List.mem_cons.mp hl with rfl | h2
        · intro hmem
          exact hc ((List.mem_singleton.mp hmem).symm)
        · simp at h2
      · rw [h] at hl
        rcases List.mem_cons.mp hl with rfl | h2
        · intro hmem
          rcases List.mem_cons.mp hmem with h3 | h3
          · exact hc h3.symm
          · exact ih m (h ▸ List.mem_cons_self m ms) h3
        · exact ih l (h ▸ List.mem_cons_of_mem m h2)

theorem mySplit_of_noNl {a : Str} (h : '\n' ∉ a) : mySplit a = [a] := by
  induction a with
  | nil => rfl
  | cons c rest ih =>
    have hc : ¬(c = '\n') := fun hh => h (hh ▸ List.mem_cons_self c rest)
    have hrest : '\n' ∉ rest := fun hh => h (List.mem_cons_of_mem c hh)
    unfold mySplit
    rw [if_neg hc, ih hrest]

theorem mySplit_append_nl {a : Str} (t : Str) (h : '\n' ∉ a) :
    mySplit (a ++ '\n' :: t) = a :: mySplit t := by
  induction a with
  | nil => simp [mySplit]
  | cons c rest ih =>
    have hc : ¬(c = '\n') := fun hh => h (hh ▸ List.mem_cons_self c rest)
    have hrest : '\n' ∉ rest := fun hh => h (List.mem_cons_of_mem c hh)
    show mySplit (c :: (rest ++ '\n' :: t)) = _
    conv_lhs => unfold mySplit
    rw [if_neg hc, ih hrest]

theorem mySplit_myJoin : ∀ L : List Str, L ≠ [] → (∀ l ∈ L, '\n' ∉ l) →
    mySplit (myJoin L) = L := by
  intro L
  induction L with
  | nil => intro h; exact absurd rfl h
  | cons l rest ih =>
    intro _ hfree
    cases rest with
    | nil =>
      show mySplit (myJoin [l]) = [l]
      unfold myJoin
      exact mySplit_of_noNl (hfree l (List.mem_cons_self _ _))
    | cons l2 rs =>
      show mySplit (l ++ '\n' :: myJoin (l2 :: rs)) = _
      rw [mySplit_append_nl _ (hfree l (List.mem_cons_self _ _))]
      rw [ih (by simp) (fun x hx => hfree x (List.mem_cons_of_mem l hx))]

theorem collapseCore_head_true :
    ∀ (ls : List Str) (h : Str), (collapseCore ls true).head? = some h → blankB h = false := by
  intro ls
  induction ls with
  | nil => simp [collapseCore]
  | cons l rest ih =>
    intro h hh
    by_cases hb : blankB l
    · simp only [collapseCore, hb, if_pos, if_true, List.nil_append] at hh
      exact ih h hh
    · simp only [collapseCore, hb, Bool.false_eq_true, if_false, List.head?_cons,
        Option.some.injEq] at hh
      subst hh
      simpa using hb

theorem collapseCore_chain :
    ∀ (ls : List Str) (b : Bool),
      List.Chain' (fun a c => ¬(blankB a = true ∧ blankB c = true)) (collapseCore ls b) := by
  intro ls
  induction ls with
  | nil => intro b; simp [collapseCore]
  | cons l rest ih =>
    intro b
    by_cases hb : blankB l
    · cases b with
      | true => simpa only [collapseCore, hb, if_pos, if_true, List.nil_append] using ih true
      | false =>
        simp only [collapseCore, hb, if_pos, if_true, if_false, List.singleton_append]
        apply List.chain'_cons'.mpr
        refine ⟨?_, ih true⟩
        intro y hy hcon
        exact absurd (collapseCore_head_true rest y hy) (by simp [hcon.2])
    · simp only [collapseCore, hb, Bool.false_eq_true, if_false]
      apply List.chain'_cons'.mpr
      refine ⟨?_, ih false⟩
      intro y _ hcon
      exact absurd hcon.1 (by simpa using hb)

theorem collapseCore_mem :
    ∀ (ls : List Str) (b : Bool) (l : Str), l ∈ collapseCore ls b → l = [] ∨ l ∈ ls := by
  intro ls
  induction ls with
  | nil => intro b l hl; simp [collapseCore] at hl
  | cons x rest ih =>
    intro b l hl
    by_cases hb : blankB x
    · unfold collapseCore at hl
      rw [if_pos hb] at hl
      rcases List.mem_append.mp hl with h1 | h1
      · left
        cases b with
        | true => simp at h1
        | false => simpa using h1
      · rcases ih true l h1 with h2 | h2
        · exact Or.inl h2
        · exact Or.inr (List.mem_cons_of_mem _ h2)
    · unfold collapseCore at hl
      rw [if_neg (by simpa using hb)] at hl
      rcases List.mem_cons.mp hl with rfl | h1
      · exact Or.inr (List.mem_cons_self _ _)
      · rcases ih false l h1 with h2 | h2
        · exact Or.inl h2
        · exact Or.inr (List.mem_cons_of_mem _ h2)

theorem rdropWhile_decomp (p : Str → Bool) (x : List Str) :
    ∃ u, List.rdropWhile p x ++ u = x := by
  obtain ⟨u, hu⟩ := List.dropWhile_suffix (l := x.reverse) p
  refine ⟨u.reverse, ?_⟩
  rw [List.rdropWhile]
  have h2 := congrArg List.reverse hu
  rwa [List.reverse_append, List.reverse_reverse] at h2

theorem trimBlanks_sublist (ls : List Str) : List.Sublist (trimBlanks ls) ls := by
  obtain ⟨u, hu⟩ := rdropWhile_decomp blankB (ls.dropWhile blankB)
  unfold trimBlanks
  have h1 : List.Sublist (List.rdropWhile blankB (ls.dropWhile blankB)) (ls.dropWhile blankB) := by
    conv_rhs => rw [← hu]
    exact List.sublist_append_left _ _
  exact h1.trans (List.dropWhile_suffix blankB).sublist

theorem trimBlanks_chain {R : Str → Str → Prop} {ls : List Str} (h : List.Chain' R ls) :
    List.Chain' R (trimBlanks ls) := by
  have h2 := h.suffix (List.dropWhile_suffix blankB)
  obtain ⟨u, hu⟩ := rdropWhile_decomp blankB (ls.dropWhile blankB)
  unfold trimBlanks
  rw [← hu] at h2
  exact h2.left_of_append

theorem trimBlanks_head {ls : List Str} {h : Str} (hh : (trimBlanks ls).head? = some h) :
    blankB h = false := by
  obtain ⟨u, hu⟩ := rdropWhile_decomp blankB (ls.dropWhile blankB)
  have hx : (ls.dropWhile blankB).head? = some h := by
    unfold trimBlanks at hh
    rw [← hu]
    rcases hd : List.rdropWhile blankB (ls.dropWhile blankB) with _ | ⟨a, as⟩
    · rw [hd] at hh
      simp at hh
    · rw [hd] at hh
      simp only [List.head?_cons, Option.some.injEq] at hh
      subst hh
      simp
  have hnot := List.head?_dropWhile_not blankB ls
  rw [hx] at hnot
  exact hnot

theorem trimBlanks_getLast {ls : List Str} {h : Str}
    (hh : (trimBlanks ls).getLast? = some h) : blankB h = false := by
  unfold trimBlanks List.rdropWhile at hh
  rw [List.getLast?_reverse] at hh
  have hnot := List.head?_dropWhile_not blankB (ls.dropWhile blankB).reverse
  rw [hh] at hnot
  exact hnot

theorem myJoin_ne_nil {h : Str} (t : List Str) (hne : h ≠ []) : myJoin (h :: t) ≠ [] := by
  cases t with
  | nil => simpa [myJoin] using hne
  | cons l2 rs =>
    show h ++ '\n' :: myJoin (l2 :: rs) ≠ []
    rcases h with _ | ⟨c, h2⟩
    · exact absurd rfl hne
    · simp

theorem goodLines_collapse {ls : List Str} (hfree : ∀ l ∈ ls, '\n' ∉ l) :
    goodLines (strLines (collapseEmptyLines ls)) := by
  unfold collapseEmptyLines
  have hfree2 : ∀ l ∈ trimBlanks (collapseCore ls false), '\n' ∉ l := by
    intro l hl
    rcases collapseCore_mem ls false l ((trimBlanks_sublist _).mem hl) with rfl | h2
    · simp
    · exact hfree l h2
  rcases hL : trimBlanks (collapseCore ls false) with _ | ⟨h, t⟩
  · show goodLines (strLines (myJoin []))
    unfold myJoin strLines
    rw [if_pos rfl]
    exact ⟨List.chain'_nil, by simp, by simp⟩
  · have hhead : blankB h = false := trimBlanks_head (by rw [hL]; simp)
    have hne : h ≠ [] := by
      intro hcon
      rw [hcon] at hhead
      simp [blankB, pyStrip, pyLstrip, pyRstrip] at hhead
    have hjoin : myJoin (h :: t) ≠ [] := myJoin_ne_nil t hne
    unfold strLines
    rw [if_neg hjoin]
    rw [mySplit_myJoin (h :: t) (by simp) (hL ▸ hfree2)]
    refine ⟨?_, ?_, ?_⟩
    · exact hL ▸ trimBlanks_chain (collapseCore_chain ls false)
    · intro y hy
      simp only [List.head?_cons, Option.some.injEq] at hy
      subst hy
      exact hhead
    · intro y hy
      exact trimBlanks_getLast (hL ▸ hy)

/-- C2: for every input string and category, the output of
`filter_output` contains no two consecutive blank (empty or
whitespace-only) lines, and neither begins nor ends with a blank line
(the empty output has no lines at all). -/
theorem claim_C2_blank_collapse (output : Str) (category : String) :
    goodLines (strLines (filterOutput output category)) := by
  unfold filterOutput
  by_cases h : output = []
  · rw [if_pos h, h]
    unfold strLines
    rw [if_pos rfl]
    exact ⟨List.chain'_nil, by simp, by simp⟩
  · rw [if_neg h]
    exact goodLines_collapse (noNl_mySplit _)

/-! ### Lemmas for the ANSI round trip (C8) -/

theorem dropWhile_append_pos {p : Char → Bool} {l : Str} {a : Char} {as : Str} (u : Str)
    (h : l.dropWhile p = a :: as) : (l ++ u).dropWhile p = a :: (as ++ u) := by
  induction l with
  | nil => simp [List.dropWhile] at h
  | cons x l' ih =>
    by_cases hx : p x
    · rw [List.dropWhile_cons_of_pos hx] at h
      rw [List.cons_append, List.dropWhile_cons_of_pos hx]
      exact ih h
    · rw [List.dropWhile_cons_of_neg hx] at h
      cases h
      rw [List.cons_append, List.dropWhile_cons_of_neg hx]

theorem dropWhile_append_nil {p : Char → Bool} {l : Str} (u : Str)
    (h : l.dropWhile p = []) : (l ++ u).dropWhile p = u.dropWhile p := by
  induction l with
  | nil => rfl
  | cons x l' ih =>
    by_cases hx : p x
    · rw [List.dropWhile_cons_of_pos hx] at h
      rw [List.cons_append, List.dropWhile_cons_of_pos hx]
      exact ih h
    · rw [List.dropWhile_cons_of_neg hx] at h
      cases h

theorem csiTail_cons_cons (rest : Str) :
    csiTail ('\x1b' :: '[' :: rest) =
      match rest.dropWhile isCsiParam with
      | c :: r2 => if isAsciiAlpha c then some r2 else none
      | [] => none := rfl

theorem csiTail_shape {s r : Str} (h : csiTail s = some r) :
    ∃ rest c, s = '\x1b' :: '[' :: rest ∧
      rest.dropWhile isCsiParam = c :: r ∧ isAsciiAlpha c = true := by
  unfold csiTail at h
  split at h
  · rename_i rest
    split at h
    · rename_i c r2 heq
      split at h
      · rename_i halpha
        cases h
        exact ⟨rest, c, rfl, heq, halpha⟩
      · cases h
    · cases h
  · cases h

theorem csiTail_some_append {s r : Str} (u : Str) (h : csiTail s = some r) :
    csiTail (s ++ u) = some (r ++ u) := by
  obtain ⟨rest, c, rfl, heq, halpha⟩ := csiTail_shape h
  show csiTail ('\x1b' :: '[' :: (rest ++ u)) = some (r ++ u)
  rw [csiTail_cons_cons, dropWhile_append_pos u heq]
  simp [halpha]

theorem csiTail_not_esc {c1 : Char} {s : Str} (h : ¬c1 = '\x1b') : csiTail (c1 :: s) = none := by
  unfold csiTail
  split
  · rename_i rest heq
    exact absurd (List.cons_eq_cons.mp heq).1 h
  · rfl

theorem csiTail_esc_not_bracket {c2 : Char} {s : Str} (h : ¬c2 = '[') :
    csiTail ('\x1b' :: c2 :: s) = none := by
  unfold csiTail
  split
  · rename_i rest heq
    exact absurd (List.cons_eq_cons.mp (List.cons_eq_cons.mp heq).2).1 h
  · rfl

theorem csiTail_none_append {s : Str} (hne : s ≠ []) (h : csiTail s = none) :
    csiTail (s ++ esc0) = none := by
  rcases s with _ | ⟨c1, s1⟩
  · exact absurd rfl hne
  rcases s1 with _ | ⟨c2, rest⟩
  · by_cases hc1 : c1 = '\x1b'
    · subst hc1
      decide
    · exact csiTail_not_esc hc1
  by_cases hc1 : c1 = '\x1b'
  case neg => exact csiTail_not_esc hc1
  subst hc1
  by_cases hc2 : c2 = '['
  case neg => exact csiTail_esc_not_bracket hc2
  subst hc2
  show csiTail ('\x1b' :: '[' :: (rest ++ esc0)) = none
  rw [csiTail_cons_cons]
  rcases hd : rest.dropWhile isCsiParam with _ | ⟨c, r2⟩
  · rw [dropWhile_append_nil esc0 hd]
    decide
  · have halpha : isAsciiAlpha c = false := by
      rw [csiTail_cons_cons, hd] at h
      by_cases ha : isAsciiAlpha c
      · simp [ha] at h
      · simpa using ha
    rw [dropWhile_append_pos esc0 hd]
    simp [halpha]

theorem scrubGo_fuel {f : Str → Option Str} (hf : ∀ s r, f s = some r → r.length < s.length) :
    ∀ (n m : Nat) (s : Str), s.length ≤ n → s.length ≤ m → scrubGo f n s = scrubGo f m s := by
  intro n
  induction n with
  | zero =>
    intro m s hn _
    have hs : s = [] := List.length_eq_zero.mp (Nat.le_zero.mp hn)
    subst hs
    cases m <;> rfl
  | succ n ih =>
    intro m s hn hm
    rcases s with _ | ⟨c, rest⟩
    · cases m <;> rfl
    · rcases m with _ | m'
      · simp at hm
      · show scrubGo f (n + 1) (c :: rest) = scrubGo f (m' + 1) (c :: rest)
        unfold scrubGo
        cases hfc : f (c :: rest) with
        | some r =>
          show scrubGo f n r = scrubGo f m' r
          have hr := hf _ _ hfc
          simp only [List.length_cons] at hn hm hr
          exact ih m' r (by omega) (by omega)
        | none =>
          show c :: scrubGo f n rest = c :: scrubGo f m' rest
          have h2 : scrubGo f n rest = scrubGo f m' rest := by
            simp only [List.length_cons] at hn hm
            exact ih m' rest (by omega) (by omega)
          rw [h2]

theorem scrubGo_nil (f : Str → Option Str) (n : Nat) : scrubGo f n [] = [] := by
  cases n <;> rfl

theorem scrubGo_csi_append :
    ∀ (n : Nat) (s : Str), (s ++ esc0).length ≤ n →
      scrubGo csiTail n (s ++ esc0) = scrubGo csiTail n s := by
  intro n
  induction n with
  | zero =>
    intro s hn
    rw [List.length_append] at hn
    have h4 : esc0.length = 4 := rfl
    omega
  | succ n ih =>
    intro s hn
    rcases s with _ | ⟨c, s'⟩
    · show scrubGo csiTail n ([] : Str) = scrubGo csiTail (n + 1) ([] : Str)
      rw [scrubGo_nil, scrubGo_nil]
    · rw [List.cons_append]
      show scrubGo csiTail (n + 1) (c :: (s' ++ esc0)) = scrubGo csiTail (n + 1) (c :: s')
      unfold scrubGo
      cases hfc : csiTail (c :: s') with
      | some r =>
        have h2 : csiTail (c :: (s' ++ esc0)) = some (r ++ esc0) := by
          have := csiTail_some_append esc0 hfc
          rwa [List.cons_append] at this
        rw [h2]
        show scrubGo csiTail n (r ++ esc0) = scrubGo csiTail n r
        have hr := csiTail_shrinks _ _ hfc
        apply ih
        simp only [List.length_append, List.length_cons] at hn hr ⊢
        omega

      | none =>
        have h2 : csiTail (c :: (s' ++ esc0)) = none := by
          have := csiTail_none_append (s := c :: s') (by simp) hfc
          rwa [List.cons_append] at this
        rw [h2]
        show c :: scrubGo csiTail n (s' ++ esc0) = c :: scrubGo csiTail n s'
        have h3 : scrubGo csiTail n (s' ++ esc0) = scrubGo csiTail n s' := by
          apply ih
          simp only [List.length_append, List.length_cons] at hn ⊢
          omega
        rw [h3]

theorem stripCSI_append_esc0 (s : Str) : stripCSI (s ++ esc0) = stripCSI s := by
  unfold stripCSI scrub
  have h1 := scrubGo_csi_append (s ++ esc0).length s (le_refl _)
  rw [h1]
  exact scrubGo_fuel csiTail_shrinks (s ++ esc0).length s.length s
    (by rw [List.length_append]; omega) (le_refl _)

theorem csiTail_esc31 (t : Str) : csiTail (esc31 ++ t) = some t := rfl

theorem stripCSI_esc31 (t : Str) : stripCSI (esc31 ++ t) = stripCSI t := by
  unfold stripCSI scrub
  have hlen : (esc31 ++ t).length = t.length + 5 := by
    have h5 : esc31.length = 5 := rfl
    rw [List.length_append, h5]
    omega
  rw [hlen]
  show scrubGo csiTail (t.length + 4 + 1) ('\x1b' :: '[' :: '3' :: '1' :: 'm' :: t)
      = scrubGo csiTail t.length t
  have h1 : csiTail ('\x1b' :: '[' :: '3' :: '1' :: 'm' :: t) = some t := rfl
  show (match csiTail ('\x1b' :: '[' :: '3' :: '1' :: 'm' :: t) with
    | some r => scrubGo csiTail (t.length + 4) r
    | none => '\x1b' :: scrubGo csiTail (t.length + 4) ('[' :: '3' :: '1' :: 'm' :: t))
      = scrubGo csiTail t.length t
  rw [h1]
  exact scrubGo_fuel csiTail_shrinks (t.length + 4) t.length t (by omega) (le_refl _)

theorem preprocess_wrap (s : Str) (hs : s ≠ []) :
    preprocessOutput (esc31 ++ s ++ esc0) = preprocessOutput s := by
  have hstrip : stripCSI (esc31 ++ s ++ esc0) = stripCSI s := by
    rw [List.append_assoc, stripCSI_esc31, stripCSI_append_esc0]
  unfold preprocessOutput
  rw [if_neg (show ¬(esc31 ++ s ++ esc0 = []) from by simp [esc31]), if_neg hs]
  rw [hstrip]

theorem lineSkip_nil (category : String) : lineSkip (patternsFor category) [] = true := by
  unfold lineSkip patternsFor
  rw [List.any_append, List.any_append]
  have h1 : SKIP_PATTERNS.any (fun p => patMatch p (pyLower [])) = true := by decide
  rw [h1]
  rfl

theorem filterOutput_empty_pre {out : Str} (category : String) (hne : out ≠ [])
    (hpre : preprocessOutput out = []) : filterOutput out category = [] := by
  unfold filterOutput
  rw [if_neg hne, hpre]
  have h2 : filterLines category (mySplit []) = [] := by
    show filterLines category [[]] = []
    unfold filterLines
    rw [List.filter_cons]
    simp [lineSkip_nil category]
  show collapseEmptyLines
      (mySplit (postprocessOutput (myJoin (dedupSimilar (filterLines category (mySplit []))))
        category)) = []
  rw [h2]
  rfl

/-- C8: wrapping any text in the ANSI color sequences `ESC[31m … ESC[0m`
does not change the result of `filter_output`, for every category: the
first preprocessing substitution removes exactly the two wrapper
sequences (a sequence boundary can neither extend nor create a match),
and every later stage sees the identical string. -/
theorem claim_C8_ansi_wrap (text : Str) (category : String) :
    filterOutput (esc31 ++ text ++ esc0) category = filterOutput text category := by
  by_cases h : text = []
  · subst h
    have hL : filterOutput (esc31 ++ [] ++ esc0) category = [] := by
      apply filterOutput_empty_pre category (by simp [esc31])
      decide
    rw [hL]
    rfl
  · have hpre := preprocess_wrap text h
    unfold filterOutput
    rw [if_neg (show ¬(esc31 ++ text ++ esc0 = []) from by simp [esc31]), if_neg h, hpre]
